import Mathlib

/-!
# Verification of the trading-analytics calculation layer

Shallow embedding of the pure calculation functions of `src/app.py`
(arbitrage engine, pressure gauge, trend classifier, Fibonacci engine)
over exact rational arithmetic, together with proofs of the specified
properties.  Python floats are modelled as `ℚ`; Python's `dict` with
insertion-order iteration is modelled as an association list; the
`try/except` wrapper of `process_arbitrage_calculation` is modelled by
explicit branches returning the error record that the `except` clause
builds, labelled with the message of the Python exception that fires.
-/

/-- Embedding of `calculate_implied_probability` from `src/app.py`:
`1 / decimal_odds`, with an explicit `0` for non-positive input. -/
def calculate_implied_probability (decimal_odds : ℚ) : ℚ :=
  if decimal_odds ≤ 0 then 0 else 1 / decimal_odds

/-- Embedding of `calculate_total_implied_probability` from `src/app.py`: sum of the list. -/
def calculate_total_implied_probability (implied_probs : List ℚ) : ℚ :=
  implied_probs.sum

/-- Embedding of `calculate_stakes` from `src/app.py`: for each probability `p`,
stake `= bankroll * p / total_implied`. -/
def calculate_stakes (bankroll : ℚ) (implied_probs : List ℚ)
    (total_implied : ℚ) : List ℚ :=
  implied_probs.map fun prob => bankroll * prob / total_implied

/-- Embedding of `calculate_pressure_gauge` from `src/app.py`:
`(long_oi - short_oi) / (long_oi + short_oi)`, `0` on zero total. -/
def calculate_pressure_gauge (long_oi short_oi : ℚ) : ℚ :=
  let total_oi := long_oi + short_oi
  if total_oi = 0 then 0 else (long_oi - short_oi) / total_oi

/-- Embedding of `calculate_trend_status` from `src/app.py`. -/
def calculate_trend_status (current_price ma50 : ℚ) : String × String :=
  if current_price > ma50 then ("BULLISH (AETOS ACTIVE)", "🟢")
  else ("BEARISH (KHRUSOS ACTIVE)", "🔴")

/-- Embedding of `calculate_fibonacci_levels` from `src/app.py`; the Python dict (which
iterates in insertion order) is modelled as the association list in the
source's insertion order. -/
def calculate_fibonacci_levels (high low : ℚ) : List (String × ℚ) :=
  let diff := high - low
  [("23.6%", high - diff * 0.236),
   ("38.2%", high - diff * 0.382),
   ("50.0%", high - diff * 0.500),
   ("61.8%", high - diff * 0.618),
   ("78.6%", high - diff * 0.786),
   ("support", low),
   ("resistance", high)]

/-- Result record of `process_arbitrage_calculation` (the Python dict with
fixed keys). -/
structure ArbResult where
  is_arb_found : Bool
  stakes : List ℚ
  profit : ℚ
  total_implied : ℚ
  implied_probs : List ℚ
  error : Option String
  deriving Repr, DecidableEq

/-- Embedding of `process_arbitrage_calculation` from `src/app.py`.  The `try/except`
is modelled explicitly: when `total_implied < 1` the code computes the
stakes and `stakes[0] * odds_list[0]`; on an empty odds list `stakes[0]`
raises `IndexError`, and on a non-empty list with `total_implied == 0`
the division in `calculate_stakes` raises `ZeroDivisionError`; both are
caught and turned into the error record with the exception's message. -/
def process_arbitrage_calculation (odds_list : List ℚ) (bankroll : ℚ) :
    ArbResult :=
  let implied_probs := odds_list.map calculate_implied_probability
  let total_implied := calculate_total_implied_probability implied_probs
  if total_implied < 1 then
    if total_implied = 0 then
      if odds_list.isEmpty then
        { is_arb_found := false, stakes := [], profit := 0,
          total_implied := 0, implied_probs := [],
          error := some "list index out of range" }
      else
        { is_arb_found := false, stakes := [], profit := 0,
          total_implied := 0, implied_probs := [],
          error := some "float division by zero" }
    else
      let stakes := calculate_stakes bankroll implied_probs total_implied
      { is_arb_found := true, stakes := stakes,
        profit := stakes.headI * odds_list.headI - bankroll,
        total_implied := total_implied, implied_probs := implied_probs,
        error := none }
  else
    { is_arb_found := false, stakes := [], profit := 0,
      total_implied := total_implied, implied_probs := implied_probs,
      error := none }

/-- The pressure-band interpretation from `main` (`src/app.py` lines
417-441): nested conditionals, first match wins. -/
def classify_pressure (pressure_gauge : ℚ) : String :=
  if pressure_gauge > 0.5 then "EXTREME LONGS"
  else if pressure_gauge < -0.5 then "EXTREME SHORTS"
  else if pressure_gauge > 0.2 then "HIGH LONGS"
  else if pressure_gauge < -0.2 then "HIGH SHORTS"
  else "BALANCED"

/-- Python's `abs` on a (here: exact-rational) float. -/
def pyabs (q : ℚ) : ℚ :=
  if q < 0 then -q else q

/-- Python's `min(..., key=f)` over a non-empty sequence `x :: xs`:
scan left, keeping the current minimum and replacing it only on
a strictly smaller key, so the first element attaining the minimal
key wins. -/
def pymin_by {α : Type} (f : α → ℚ) (x : α) (xs : List α) : α :=
  xs.foldl (fun best y => if f y < f best then y else best) x

/-- The nearest-level lookup from `main` (`src/app.py` lines 606-608):
`distances = {name: abs(price - value) ...}`,
`closest_level = min(distances, key=distances.get)`; returns the
(label, value) entry of the levels mapping whose value minimises
`abs(price - value)`, ties resolved to the first-inserted entry. -/
def closest_level (fib_levels : List (String × ℚ)) (current_price : ℚ) :
    Option (String × ℚ) :=
  match fib_levels with
  | [] => none
  | x :: xs => some (pymin_by (fun e => pyabs (current_price - e.2)) x xs)

/-! ## Helper lemmas -/

lemma cip_of_pos {o : ℚ} (ho : 0 < o) :
    calculate_implied_probability o = 1 / o := by
  unfold calculate_implied_probability
  rw [if_neg (not_le.mpr ho)]

lemma map_cip_of_pos {odds_list : List ℚ} (hpos : ∀ o ∈ odds_list, 0 < o) :
    odds_list.map calculate_implied_probability =
      odds_list.map fun o => 1 / o :=
  List.map_congr_left fun o ho => cip_of_pos (hpos o ho)

lemma recip_sum_pos {odds_list : List ℚ} (hne : odds_list ≠ [])
    (hpos : ∀ o ∈ odds_list, 0 < o) :
    0 < (odds_list.map fun o => 1 / o).sum := by
  apply List.sum_pos
  · intro x hx
    obtain ⟨o, ho, rfl⟩ := List.mem_map.mp hx
    exact one_div_pos.mpr (hpos o ho)
  · simpa using hne

lemma process_arbitrage_not_found (odds_list : List ℚ) (bankroll : ℚ)
    (hge : 1 ≤ (odds_list.map calculate_implied_probability).sum) :
    process_arbitrage_calculation odds_list bankroll =
      { is_arb_found := false, stakes := [], profit := 0,
        total_implied := (odds_list.map calculate_implied_probability).sum,
        implied_probs := odds_list.map calculate_implied_probability,
        error := none } := by
  unfold process_arbitrage_calculation calculate_total_implied_probability
  rw [if_neg (not_lt.mpr hge)]

lemma process_arbitrage_found (odds_list : List ℚ) (bankroll : ℚ)
    (hne : odds_list ≠ []) (hpos : ∀ o ∈ odds_list, 0 < o)
    (hsum : (odds_list.map fun o => 1 / o).sum < 1) :
    process_arbitrage_calculation odds_list bankroll =
      { is_arb_found := true,
        stakes := odds_list.map fun o =>
          bankroll * (1 / o) / (odds_list.map fun o => 1 / o).sum,
        profit := bankroll / (odds_list.map fun o => 1 / o).sum - bankroll,
        total_implied := (odds_list.map fun o => 1 / o).sum,
        implied_probs := odds_list.map fun o => 1 / o,
        error := none } := by
  have hS : 0 < (odds_list.map fun o => 1 / o).sum := recip_sum_pos hne hpos
  obtain ⟨o₀, os, rfl⟩ : ∃ o₀ os, odds_list = o₀ :: os := by
    cases odds_list with
    | nil => exact absurd rfl hne
    | cons a l => exact ⟨a, l, rfl⟩
  have ho₀ : 0 < o₀ := hpos o₀ (List.mem_cons_self _ _)
  unfold process_arbitrage_calculation calculate_total_implied_probability
    calculate_stakes
  rw [map_cip_of_pos hpos]
  rw [if_pos hsum, if_neg (ne_of_gt hS)]
  have ho₀' : o₀ ≠ 0 := ne_of_gt ho₀
  have hS0 : ((o₀ :: os).map fun o => 1 / o).sum ≠ 0 := ne_of_gt hS
  simp only [List.map_map, Function.comp_def, ArbResult.mk.injEq, List.map_cons,
    List.headI, true_and, and_true]
  rw [sub_left_inj]
  field_simp

/-! ## Claim theorems: arbitrage engine -/

/-- C1: for every odds sequence of length at least 2 whose elements all
exceed 1 and every positive bankroll, if the sum of the reciprocals of
the odds is strictly below 1 then `process_arbitrage_calculation`
reports `is_arb_found = true` with strictly positive profit. -/
theorem arbitrage_found_positive_profit (odds_list : List ℚ) (bankroll : ℚ)
    (hlen : 2 ≤ odds_list.length) (hodds : ∀ o ∈ odds_list, 1 < o)
    (hbank : 0 < bankroll)
    (hsum : (odds_list.map fun o => 1 / o).sum < 1) :
    (process_arbitrage_calculation odds_list bankroll).is_arb_found = true ∧
    0 < (process_arbitrage_calculation odds_list bankroll).profit := by
  have hne : odds_list ≠ [] := by
    intro h
    rw [h] at hlen
    simp at hlen
  have hpos : ∀ o ∈ odds_list, 0 < o := fun o ho =>
    lt_trans one_pos (hodds o ho)
  have hS : 0 < (odds_list.map fun o => 1 / o).sum := recip_sum_pos hne hpos
  rw [process_arbitrage_found odds_list bankroll hne hpos hsum]
  refine ⟨rfl, ?_⟩
  have hlt : bankroll < bankroll / (odds_list.map fun o => 1 / o).sum := by
    rw [lt_div_iff₀ hS]
    nlinarith
  simpa using sub_pos.mpr hlt

/-- C1 witness: the spec's own example `odds = [3, 3, 4]`,
`bankroll = 100` is an arbitrage with positive profit. -/
theorem arbitrage_found_positive_profit_witness :
    (process_arbitrage_calculation [3, 3, 4] 100).is_arb_found = true ∧
    0 < (process_arbitrage_calculation [3, 3, 4] 100).profit :=
  arbitrage_found_positive_profit [3, 3, 4] 100 (by norm_num)
    (by norm_num) (by norm_num)
    (by norm_num [List.map_cons, List.map_nil, List.sum_cons, List.sum_nil])

/-- C2: for non-empty, all-positive odds and positive bankroll,
`is_arb_found = true` exactly when the total implied probability (the
sum of the reciprocal odds) is strictly below 1; and on the boundary
example `odds = [2, 2]` the total implied probability is exactly 1 and
no arbitrage is reported. -/
theorem arbitrage_iff_total_implied_lt_one (odds_list : List ℚ)
    (bankroll : ℚ) (hne : odds_list ≠ [])
    (hpos : ∀ o ∈ odds_list, 0 < o) (hbank : 0 < bankroll) :
    ((process_arbitrage_calculation odds_list bankroll).is_arb_found = true ↔
      (odds_list.map fun o => 1 / o).sum < 1) ∧
    (process_arbitrage_calculation [2, 2] bankroll).total_implied = 1 ∧
    (process_arbitrage_calculation [2, 2] bankroll).is_arb_found = false := by
  refine ⟨⟨?_, ?_⟩, ?_, ?_⟩
  · intro hfound
    by_contra hge
    push_neg at hge
    have hge' : 1 ≤ (odds_list.map calculate_implied_probability).sum := by
      rwa [map_cip_of_pos hpos]
    rw [process_arbitrage_not_found odds_list bankroll hge'] at hfound
    simp at hfound
  · intro hsum
    rw [process_arbitrage_found odds_list bankroll hne hpos hsum]
  · norm_num [process_arbitrage_calculation,
      calculate_total_implied_probability, calculate_implied_probability]
  · norm_num [process_arbitrage_calculation,
      calculate_total_implied_probability, calculate_implied_probability]

/-- C2 witness: instantiation at `odds = [3, 3, 4]`, `bankroll = 100`. -/
theorem arbitrage_iff_total_implied_lt_one_witness :
    (process_arbitrage_calculation [3, 3, 4] 100).is_arb_found = true ↔
      (([3, 3, 4] : List ℚ).map fun o => 1 / o).sum < 1 :=
  (arbitrage_iff_total_implied_lt_one [3, 3, 4] 100 (by simp)
    (by norm_num) (by norm_num)).1

/-- C3: for a found arbitrage (non-empty all-positive odds, positive
bankroll, total implied probability strictly below 1), every outcome's
payout `stakes[i] * odds[i]` equals `bankroll / totalImplied` exactly,
and the reported profit (computed from index 0) equals
`stakes[i] * odds[i] - bankroll` for every index `i`. -/
theorem stakes_payout_invariant (odds_list : List ℚ) (bankroll : ℚ)
    (hne : odds_list ≠ []) (hpos : ∀ o ∈ odds_list, 0 < o)
    (hbank : 0 < bankroll)
    (hsum : (odds_list.map fun o => 1 / o).sum < 1) :
    (process_arbitrage_calculation odds_list bankroll).stakes.length =
      odds_list.length ∧
    ∀ i (hi : i < (process_arbitrage_calculation odds_list
        bankroll).stakes.length) (hj : i < odds_list.length),
      (process_arbitrage_calculation odds_list bankroll).stakes.get ⟨i, hi⟩ *
          odds_list.get ⟨i, hj⟩ =
        bankroll / (odds_list.map fun o => 1 / o).sum ∧
      (process_arbitrage_calculation odds_list bankroll).profit =
        (process_arbitrage_calculation odds_list bankroll).stakes.get
            ⟨i, hi⟩ * odds_list.get ⟨i, hj⟩ - bankroll := by
  have hS : 0 < (odds_list.map fun o => 1 / o).sum := recip_sum_pos hne hpos
  have hfound := process_arbitrage_found odds_list bankroll hne hpos hsum
  constructor
  · rw [hfound]
    simp
  · intro i hi hj
    have hoi : 0 < odds_list.get ⟨i, hj⟩ :=
      hpos _ (List.get_mem odds_list i hj)
    have h1 : odds_list.get ⟨i, hj⟩ ≠ 0 := ne_of_gt hoi
    have h2 : (odds_list.map fun o => 1 / o).sum ≠ 0 := ne_of_gt hS
    have hpay : (process_arbitrage_calculation odds_list
        bankroll).stakes.get ⟨i, hi⟩ * odds_list.get ⟨i, hj⟩ =
        bankroll / (odds_list.map fun o => 1 / o).sum := by
      have hget : (process_arbitrage_calculation odds_list
          bankroll).stakes.get ⟨i, hi⟩ =
          bankroll * (1 / odds_list.get ⟨i, hj⟩) /
            (odds_list.map fun o => 1 / o).sum := by
        simp only [List.get_eq_getElem]
        conv in (process_arbitrage_calculation odds_list bankroll).stakes =>
          rw [hfound]
        simp [List.getElem_map]
      rw [hget]
      simp only [List.get_eq_getElem] at h1 ⊢
      field_simp
      ring
    refine ⟨hpay, ?_⟩
    rw [hpay, hfound]

/-- C3 witness: at `odds = [3, 3, 4]`, `bankroll = 100` the stake list
has one stake per outcome. -/
theorem stakes_payout_invariant_witness :
    (process_arbitrage_calculation [3, 3, 4] 100).stakes.length =
      ([3, 3, 4] : List ℚ).length :=
  (stakes_payout_invariant [3, 3, 4] 100 (by simp) (by norm_num)
    (by norm_num)
    (by norm_num [List.map_cons, List.map_nil, List.sum_cons,
      List.sum_nil])).1

/-- C4: on the empty odds sequence the calculation does not surface an
uncaught fault: it returns `is_arb_found = false`, empty stakes, zero
profit, zero total implied probability, empty implied probabilities and
a non-null descriptive error string (the caught `IndexError` message). -/
theorem process_arbitrage_empty_odds (bankroll : ℚ) :
    process_arbitrage_calculation [] bankroll =
      { is_arb_found := false, stakes := [], profit := 0,
        total_implied := 0, implied_probs := [],
        error := some "list index out of range" } ∧
    (process_arbitrage_calculation [] bankroll).error ≠ none := by
  have h : process_arbitrage_calculation [] bankroll =
      { is_arb_found := false, stakes := [], profit := 0,
        total_implied := 0, implied_probs := [],
        error := some "list index out of range" } := by
    norm_num [process_arbitrage_calculation,
      calculate_total_implied_probability]
  refine ⟨h, ?_⟩
  rw [h]
  simp

/-- C5 counterexample: `odds = [2, -1]` contains the non-positive
element `-1`, yet the calculation reports a found arbitrage with
`error = None`, non-empty stakes and non-zero profit - no error result
is produced for a merely partially non-positive odds sequence. -/
theorem mixed_sign_odds_no_error :
    ((-1 : ℚ) ≤ 0) ∧
    (process_arbitrage_calculation [2, -1] 100).error = none ∧
    (process_arbitrage_calculation [2, -1] 100).is_arb_found = true ∧
    (process_arbitrage_calculation [2, -1] 100).stakes = [100, 0] ∧
    (process_arbitrage_calculation [2, -1] 100).profit = 100 := by
  norm_num [process_arbitrage_calculation,
    calculate_total_implied_probability, calculate_implied_probability,
    calculate_stakes]

/-- C5 amended: only when every element of a non-empty odds sequence is
non-positive does the calculation produce the error-carrying result
(the caught `ZeroDivisionError`), with stakes cleared to `[]` and
profit cleared to `0` and no partial computation surfaced. -/
theorem all_nonpositive_odds_error (odds_list : List ℚ) (bankroll : ℚ)
    (hne : odds_list ≠ []) (hnp : ∀ o ∈ odds_list, o ≤ 0) :
    process_arbitrage_calculation odds_list bankroll =
      { is_arb_found := false, stakes := [], profit := 0,
        total_implied := 0, implied_probs := [],
        error := some "float division by zero" } := by
  have hzero : ∀ x ∈ odds_list.map calculate_implied_probability, x = 0 := by
    intro x hx
    obtain ⟨o, ho, rfl⟩ := List.mem_map.mp hx
    unfold calculate_implied_probability
    rw [if_pos (hnp o ho)]
  have hsum : (odds_list.map calculate_implied_probability).sum = 0 :=
    List.sum_eq_zero hzero
  have hempty : odds_list.isEmpty = false := by
    simpa [List.isEmpty_iff] using hne
  simp only [process_arbitrage_calculation,
    calculate_total_implied_probability]
  rw [hsum, if_pos (by norm_num : (0 : ℚ) < 1), if_pos rfl, hempty]
  simp

/-- C5 amended witness: `odds = [-2, 0]`, `bankroll = 50`. -/
theorem all_nonpositive_odds_error_witness :
    process_arbitrage_calculation [-2, 0] 50 =
      { is_arb_found := false, stakes := [], profit := 0,
        total_implied := 0, implied_probs := [],
        error := some "float division by zero" } :=
  all_nonpositive_odds_error [-2, 0] 50 (by simp) (by norm_num)

/-! ## Claim theorems: pressure gauge, trend, Fibonacci -/

/-- C6: for non-negative open-interest inputs, the pressure gauge is
`(long - short) / (long + short)` when the total is positive, `0` when
the total is zero, and always lies in `[-1, 1]`. -/
theorem calculate_pressure_gauge_spec (long_oi short_oi : ℚ)
    (hl : 0 ≤ long_oi) (hs : 0 ≤ short_oi) :
    (0 < long_oi + short_oi →
      calculate_pressure_gauge long_oi short_oi =
        (long_oi - short_oi) / (long_oi + short_oi)) ∧
    (long_oi + short_oi = 0 →
      calculate_pressure_gauge long_oi short_oi = 0) ∧
    (-1 ≤ calculate_pressure_gauge long_oi short_oi ∧
      calculate_pressure_gauge long_oi short_oi ≤ 1) := by
  by_cases h : long_oi + short_oi = 0
  · simp only [calculate_pressure_gauge, if_pos h]
    norm_num [h]
  · have hpos : 0 < long_oi + short_oi :=
      lt_of_le_of_ne (by linarith) (Ne.symm h)
    simp only [calculate_pressure_gauge, if_neg h]
    refine ⟨fun _ => trivial, fun hc => absurd hc h, ?_, ?_⟩
    · rw [le_div_iff₀ hpos]
      linarith
    · rw [div_le_one hpos]
      linarith

/-- C6 witness: instantiation at the dashboard defaults
`long_oi = 5500000`, `short_oi = 4500000`. -/
theorem calculate_pressure_gauge_spec_witness :
    -1 ≤ calculate_pressure_gauge 5500000 4500000 ∧
      calculate_pressure_gauge 5500000 4500000 ≤ 1 :=
  (calculate_pressure_gauge_spec 5500000 4500000 (by norm_num)
    (by norm_num)).2.2

/-- C7: the pressure-band classification follows the source's
first-match-wins nested conditionals - `EXTREME LONGS` for ratio above
0.5, `EXTREME SHORTS` below -0.5, `HIGH LONGS` above 0.2, `HIGH SHORTS`
below -0.2, else `BALANCED` - and the dashboard default inputs give
ratio 0.1, classified `BALANCED`. -/
theorem classify_pressure_spec :
    (∀ r : ℚ,
      (classify_pressure r = "EXTREME LONGS" ↔ 0.5 < r) ∧
      (classify_pressure r = "EXTREME SHORTS" ↔ r < -0.5) ∧
      (classify_pressure r = "HIGH LONGS" ↔ 0.2 < r ∧ r ≤ 0.5) ∧
      (classify_pressure r = "HIGH SHORTS" ↔ -0.5 ≤ r ∧ r < -0.2) ∧
      (classify_pressure r = "BALANCED" ↔ -0.2 ≤ r ∧ r ≤ 0.2)) ∧
    calculate_pressure_gauge 5500000 4500000 = 0.1 ∧
    classify_pressure (calculate_pressure_gauge 5500000 4500000) =
      "BALANCED" := by
  refine ⟨fun r => ?_, by norm_num [calculate_pressure_gauge],
    by norm_num [calculate_pressure_gauge, classify_pressure]⟩
  unfold classify_pressure
  split_ifs with h1 h2 h3 h4 <;>
    refine ⟨?_, ?_, ?_, ?_, ?_⟩ <;> simp <;>
      first
        | linarith
        | (intro hh; linarith)
        | (constructor <;> linarith)

/-- C10: the trend classifier returns the bullish label exactly when
`current_price > ma50` and the bearish label exactly when
`current_price ≤ ma50`; in particular equality (`100` vs `100`) is
classified bearish. -/
theorem calculate_trend_status_spec :
    (∀ current_price ma50 : ℚ,
      (calculate_trend_status current_price ma50 =
          ("BULLISH (AETOS ACTIVE)", "🟢") ↔ ma50 < current_price) ∧
      (calculate_trend_status current_price ma50 =
          ("BEARISH (KHRUSOS ACTIVE)", "🔴") ↔ current_price ≤ ma50)) ∧
    calculate_trend_status 100 100 = ("BEARISH (KHRUSOS ACTIVE)", "🔴") := by
  refine ⟨fun p m => ?_, by norm_num [calculate_trend_status]⟩
  unfold calculate_trend_status
  split_ifs with h
  · simp only [gt_iff_lt] at h
    constructor <;> simp <;> linarith
  · simp only [gt_iff_lt, not_lt] at h
    constructor <;> simp <;> linarith

/-- C8: the Fibonacci levels map each ratio `r` in
`{0.236, 0.382, 0.500, 0.618, 0.786}` to `high - (high - low) * r`,
plus `support = low` and `resistance = high`; when `high > low` every
level lies in `[low, high]`, the five ratio levels lie strictly between
`low` and `high`, and they are strictly decreasing as the retracement
fraction increases. -/

theorem calculate_fibonacci_levels_spec (high low : ℚ) :
    (calculate_fibonacci_levels high low).lookup "23.6%" =
        some (high - (high - low) * 0.236) ∧
    (calculate_fibonacci_levels high low).lookup "38.2%" =
        some (high - (high - low) * 0.382) ∧
    (calculate_fibonacci_levels high low).lookup "50.0%" =
        some (high - (high - low) * 0.500) ∧
    (calculate_fibonacci_levels high low).lookup "61.8%" =
        some (high - (high - low) * 0.618) ∧
    (calculate_fibonacci_levels high low).lookup "78.6%" =
        some (high - (high - low) * 0.786) ∧
    (calculate_fibonacci_levels high low).lookup "support" = some low ∧
    (calculate_fibonacci_levels high low).lookup "resistance" = some high ∧
    (low < high →
      (low < high - (high - low) * 0.786 ∧
        high - (high - low) * 0.786 < high - (high - low) * 0.618 ∧
        high - (high - low) * 0.618 < high - (high - low) * 0.500 ∧
        high - (high - low) * 0.500 < high - (high - low) * 0.382 ∧
        high - (high - low) * 0.382 < high - (high - low) * 0.236 ∧
        high - (high - low) * 0.236 < high) ∧
      ∀ p ∈ calculate_fibonacci_levels high low, low ≤ p.2 ∧ p.2 ≤ high) := by
  refine ⟨by simp [calculate_fibonacci_levels, List.lookup],
    by simp [calculate_fibonacci_levels, List.lookup],
    by simp [calculate_fibonacci_levels, List.lookup],
    by simp [calculate_fibonacci_levels, List.lookup],
    by simp [calculate_fibonacci_levels, List.lookup],
    by simp [calculate_fibonacci_levels, List.lookup],
    by simp [calculate_fibonacci_levels, List.lookup], ?_⟩
  intro h
  constructor
  · refine ⟨?_, ?_, ?_, ?_, ?_, ?_⟩ <;> nlinarith
  · intro p hp
    simp only [calculate_fibonacci_levels, List.mem_cons,
      List.not_mem_nil, or_false] at hp
    rcases hp with rfl | rfl | rfl | rfl | rfl | rfl | rfl <;>
      refine ⟨?_, ?_⟩ <;> simp only [] <;> nlinarith

/-- C8 witness: instantiation at `high = 110000`, `low = 109000`; the
deepest ratio level (78.6%) sits strictly above the low. -/
theorem calculate_fibonacci_levels_spec_witness :
    (109000 : ℚ) < 110000 - ((110000 : ℚ) - 109000) * 0.786 :=
  ((calculate_fibonacci_levels_spec 110000
    109000).2.2.2.2.2.2.2 (by norm_num)).1.1

/-- Structural property of Python's first-wins `min`: the selected
element splits the scanned sequence into a strict-greater prefix and a
suffix, and carries a minimal key overall. -/

lemma pymin_by_decomp {α : Type} (f : α → ℚ) (xs : List α) (x : α) :
    ∃ l₁ l₂, x :: xs = l₁ ++ pymin_by f x xs :: l₂ ∧
      (∀ y ∈ l₁, f (pymin_by f x xs) < f y) ∧
      (∀ y ∈ x :: xs, f (pymin_by f x xs) ≤ f y) := by
  induction xs generalizing x with
  | nil =>
    refine ⟨[], [], rfl, by simp, ?_⟩
    intro y hy
    rcases List.mem_cons.mp hy with rfl | hy
    · exact le_refl _
    · simp at hy
  | cons y ys ih =>
    have hstep : pymin_by f x (y :: ys) =
        pymin_by f (if f y < f x then y else x) ys := rfl
    by_cases h : f y < f x
    · rw [hstep, if_pos h]
      obtain ⟨l₁, l₂, hdec, hlt, hmin⟩ := ih y
      refine ⟨x :: l₁, l₂, ?_, ?_, ?_⟩
      · rw [List.cons_append, ← hdec]
      · intro z hz
        rcases List.mem_cons.mp hz with rfl | hz
        · exact lt_of_le_of_lt (hmin y (List.mem_cons_self _ _)) h
        · exact hlt z hz
      · intro z hz
        rcases List.mem_cons.mp hz with rfl | hz
        · exact le_of_lt (lt_of_le_of_lt (hmin y (List.mem_cons_self _ _)) h)
        · exact hmin z hz
    · rw [hstep, if_neg h]
      push_neg at h
      obtain ⟨l₁, l₂, hdec, hlt, hmin⟩ := ih x
      cases l₁ with
      | nil =>
        simp only [List.nil_append] at hdec
        injection hdec with hx1 hx2
        refine ⟨[], y :: ys, ?_, by simp, ?_⟩
        · rw [List.nil_append, ← hx1]
        · intro z hz
          rcases List.mem_cons.mp hz with rfl | hz
          · exact le_of_eq (by rw [← hx1])
          · rcases List.mem_cons.mp hz with rfl | hz
            · exact le_trans (le_of_eq (by rw [← hx1])) h
            · exact hmin z (List.mem_cons_of_mem _ hz)
      | cons b l₁ =>
        rw [List.cons_append] at hdec
        injection hdec with hb hys
        have hrx : f (pymin_by f x ys) < f x := by
          have hbb := hlt b (List.mem_cons_self _ _)
          rw [← hb] at hbb
          exact hbb
        refine ⟨x :: y :: l₁, l₂, ?_, ?_, ?_⟩
        · rw [List.cons_append, List.cons_append, ← hys]
        · intro z hz
          rcases List.mem_cons.mp hz with rfl | hz
          · exact hrx
          · rcases List.mem_cons.mp hz with rfl | hz
            · exact lt_of_lt_of_le hrx h
            · exact hlt z (List.mem_cons_of_mem _ hz)
        · intro z hz
          rcases List.mem_cons.mp hz with rfl | hz
          · exact le_of_lt hrx
          · rcases List.mem_cons.mp hz with rfl | hz
            · exact le_of_lt (lt_of_lt_of_le hrx h)
            · exact hmin z (List.mem_cons_of_mem _ hz)

/-- C9: the nearest-level lookup selects an entry of the Fibonacci
levels mapping that minimises `abs(price - value)`, with every entry
inserted before it strictly farther away (first-inserted wins on ties);
for `high = 110000`, `low = 109000`, `price = 109550` it selects the
`50.0%` level with value `109500`, at distance `50`. -/

theorem closest_level_spec (high low price : ℚ) (e : String × ℚ)
    (h : closest_level (calculate_fibonacci_levels high low) price = some e) :
    (∃ l₁ l₂, calculate_fibonacci_levels high low = l₁ ++ e :: l₂ ∧
      ∀ x ∈ l₁, pyabs (price - e.2) < pyabs (price - x.2)) ∧
    (∀ x ∈ calculate_fibonacci_levels high low,
      pyabs (price - e.2) ≤ pyabs (price - x.2)) ∧
    closest_level (calculate_fibonacci_levels 110000 109000) 109550 =
      some ("50.0%", 109500) ∧
    pyabs ((109550 : ℚ) - 109500) = 50 := by
  obtain ⟨x, xs, hfib⟩ : ∃ x xs,
      calculate_fibonacci_levels high low = x :: xs := ⟨_, _, rfl⟩
  rw [hfib] at h
  simp only [closest_level, Option.some.injEq] at h
  obtain ⟨l₁, l₂, hdec, hlt, hmin⟩ :=
    pymin_by_decomp (fun q => pyabs (price - q.2)) xs x
  refine ⟨⟨l₁, l₂, ?_, ?_⟩, ?_, ?_, ?_⟩
  · rw [hfib, hdec, ← h]
  · intro z hz
    have hz' := hlt z hz
    rw [h] at hz'
    exact hz'
  · intro z hz
    rw [hfib] at hz
    have hz' := hmin z hz
    rw [h] at hz'
    exact hz'
  · norm_num [closest_level, calculate_fibonacci_levels, pymin_by, pyabs]
  · norm_num [pyabs]

/-- C9 witness: the concrete selection for the dashboard defaults. -/

theorem closest_level_spec_witness :
    closest_level (calculate_fibonacci_levels 110000 109000) 109550 =
      some ("50.0%", 109500) ∧
    pyabs ((109550 : ℚ) - 109500) = 50 :=
  ⟨(closest_level_spec 110000 109000 109550 ("50.0%", 109500)
      (by norm_num [closest_level, calculate_fibonacci_levels, pymin_by,
        pyabs])).2.2.1,
   (closest_level_spec 110000 109000 109550 ("50.0%", 109500)
      (by norm_num [closest_level, calculate_fibonacci_levels, pymin_by,
        pyabs])).2.2.2⟩
